import Mathlib

/-!
Verification of the comic-engine backend: a shallow embedding in Lean 4 of
the depth-estimation pipeline (image decode → model inference → min-max
normalisation → grayscale PNG encode → HTTP response).

Floating-point values are modelled as exact rationals (ℚ); 2-D numpy
rasters as lists of rows (`List (List ℚ)`).  External libraries (PIL's
decoder, the neural network) are parameters of the embedded functions:
the code under verification is the repository's own glue logic.
-/

namespace ComicEngine

/-- A 2-D raster of floating-point values (numpy `ndarray` of rank 2),
modelled as a list of rows. -/
abbrev Raster := List (List ℚ)

/-- All elements of a raster, row-major (numpy treats reductions such as
`min`/`max` over all elements). -/
def rasterElems (r : Raster) : List ℚ := r.flatten

/-- `raw.min()`: minimum over all elements.  numpy raises on an empty
array; the `0` default for the empty case is never reached by any claim
(all hypotheses force a nonempty raster). -/
def rasterMin (r : Raster) : ℚ :=
  match rasterElems r with
  | [] => 0
  | x :: xs => xs.foldl min x

/-- `raw.max()`: maximum over all elements (same empty-case convention as
`rasterMin`). -/
def rasterMax (r : Raster) : ℚ :=
  match rasterElems r with
  | [] => 0
  | x :: xs => xs.foldl max x

/-- `np.zeros_like(raw)`: an all-zero raster of the same shape. -/
def zeros_like (r : Raster) : Raster :=
  r.map (fun row => row.map (fun _ => (0 : ℚ)))

/-- `shape[0]` of a 2-D numpy array: the number of rows. -/
def rasterHeight (r : Raster) : ℕ := r.length

/-- `shape[1]` of a 2-D numpy array: the number of columns (length of the
first row; numpy arrays are rectangular). -/
def rasterWidth (r : Raster) : ℕ := (r.headD []).length

/-- The full shape of a raster: row count and the length of every row
(for a rectangular numpy array all row lengths agree). -/
def rasterShape (r : Raster) : ℕ × List ℕ := (r.length, r.map List.length)

/-- A decoded image in RGB mode (PIL image after `convert("RGB")`):
three 8-bit channels per pixel. -/
structure RGBImage where
  width : ℕ
  height : ℕ
  pix : List (List (ℕ × ℕ × ℕ))
deriving Repr, DecidableEq

/-- A PIL image as returned by `Image.open(...).load()`: an arbitrary
colour mode; pixels carried with an alpha channel (opaque where the mode
has none).  Only what the repository's code touches is modelled. -/
structure PILImage where
  mode : String
  width : ℕ
  height : ℕ
  pix : List (List (ℕ × ℕ × ℕ × ℕ))
deriving Repr, DecidableEq

/-- `img.convert("RGB")`: same pixel dimensions, alpha channel dropped,
result in RGB mode. -/
def convertRGB (img : PILImage) : RGBImage :=
  { width := img.width
    height := img.height
    pix := img.pix.map (fun row => row.map (fun p => (p.1, p.2.1, p.2.2.1))) }

/-- `decode_upload` from `core/image_utils.py`.  `pilDecode` stands for
the external PIL decoder (`Image.open` + `.load()`), returning `none`
exactly when decoding raises; the function wraps any such failure into a
`ValueError("Invalid image data")`, and converts a successful decode to
RGB. -/
def decode_upload (pilDecode : List ℕ → Option PILImage)
    (file_bytes : List ℕ) : Except String RGBImage :=
  match pilDecode file_bytes with
  | none => .error "Invalid image data"
  | some img => .ok (convertRGB img)

/-- A depth model satisfying `DepthModelPort`: `predict` maps an RGB
image to a raw depth raster. -/
abbrev DepthModelPort := RGBImage → Raster

/-- `estimate_depth` from `core/depth.py`: run the model, then min-max
normalise; if `min == max`, return an all-zero map of the same shape. -/
def estimate_depth (image : RGBImage) (model : DepthModelPort) : Raster :=
  let raw := model image
  let min_val := rasterMin raw
  let max_val := rasterMax raw
  if min_val = max_val then
    zeros_like raw
  else
    raw.map (fun row => row.map (fun v => (v - min_val) / (max_val - min_val)))

/-- numpy `clip(lo, hi)` on a scalar. -/
def clip (x lo hi : ℚ) : ℚ := max lo (min x hi)

/-- `astype(np.uint8)` on a scalar float: truncation toward zero of the
clipped value, reduced modulo 2^8.  After `clip(0, 255)` the argument is
in `[0, 255]`, where truncation coincides with `floor` and the modulus is
the identity. -/
def toUint8 (x : ℚ) : ℕ := ⌊x⌋.toNat % 256

/-- `depth_to_png` from `core/image_utils.py`, up to the final PNG
serialisation (external PIL): the single-channel 8-bit pixel grid
`(depth_array * 255).clip(0, 255).astype(np.uint8)`. -/
def depth_to_png (depth_array : Raster) : List (List ℕ) :=
  depth_array.map (fun row => row.map (fun v => toUint8 (clip (v * 255) 0 255)))

/-- The pixel the spec prescribes: `floor(value × 255)` clamped to
`[0, 255]`. -/
def pngPixelSpec (v : ℚ) : ℤ := min 255 (max 0 ⌊v * 255⌋)

/-- The body of an HTTP response: either FastAPI's JSON error rendering
of `HTTPException` (the `detail` field) or raw image bytes, carried here
as the grayscale pixel grid the PNG encodes. -/
inductive HttpBody where
  | json (detail : String)
  | png (content : List (List ℕ))
deriving Repr, DecidableEq

/-- An HTTP response as the FastAPI adapter builds it: status code,
optional content type, body and extra headers. -/
structure HttpResponse where
  status : ℕ
  mediaType : Option String
  body : HttpBody
  headers : List (String × String)
deriving Repr, DecidableEq

/-- The `POST /api/depth` handler from `app.py`: read the upload bytes,
decode them (`400` with the `ValueError` message on failure), run the
depth use case, encode to PNG and answer `200` with the depth map's
dimensions in `X-Depth-Width` / `X-Depth-Height`. -/
def depthHandler (pilDecode : List ℕ → Option PILImage)
    (model : DepthModelPort) (raw : List ℕ) : HttpResponse :=
  match decode_upload pilDecode raw with
  | .error e =>
      { status := 400, mediaType := none, body := .json e, headers := [] }
  | .ok image =>
      let depth_map := estimate_depth image model
      let png_bytes := depth_to_png depth_map
      { status := 200
        mediaType := some "image/png"
        body := .png png_bytes
        headers := [("X-Depth-Width", toString (rasterWidth depth_map)),
                    ("X-Depth-Height", toString (rasterHeight depth_map))] }

/-- An execution device (`torch.device`). -/
inductive Device where
  | mps
  | cuda
  | cpu
deriving Repr, DecidableEq

/-- `_detect_device` from `adapters/depth_anything.py`, as a function of
the two availability flags `torch.backends.mps.is_available()` and
`torch.cuda.is_available()`. -/
def detect_device (mpsAvail cudaAvail : Bool) : Device :=
  if mpsAvail then .mps
  else if cudaAvail then .cuda
  else .cpu

/-- The spec's reading of device selection: an ordered preference list of
candidates paired with availability, the first available one winning.
CPU is always available. -/
def devicePreference (mpsAvail cudaAvail : Bool) : List (Device × Bool) :=
  [(.mps, mpsAvail), (.cuda, cudaAvail), (.cpu, true)]

/-- First available candidate of a preference list. -/
def firstAvailable : List (Device × Bool) → Option Device
  | [] => none
  | (d, avail) :: rest => if avail then some d else firstAvailable rest

/-- The mutable state of `DepthAnythingV2Adapter`: the lazily loaded
processor, model and device (`None` until `_load` runs).  The loaded
artefacts themselves are external; they are carried as abstract
handles. -/
structure AdapterState where
  processor : Option ℕ
  model : Option ℕ
  device : Option Device
deriving Repr, DecidableEq

/-- `DepthAnythingV2Adapter.__init__`: all three fields start at
`None`. -/
def initAdapterState : AdapterState :=
  { processor := none, model := none, device := none }

/-- `_load` from `adapters/depth_anything.py`: a no-op when the model is
already loaded, otherwise detect the device and install the processor
and model fetched from the hub (`proc`, `weights` stand for the
artefacts `from_pretrained` returns). -/
def _load (mpsAvail cudaAvail : Bool) (proc weights : ℕ)
    (s : AdapterState) : AdapterState :=
  if s.model.isSome then s
  else
    { processor := some proc
      model := some weights
      device := some (detect_device mpsAvail cudaAvail) }

/-- `predict` from `adapters/depth_anything.py`: ensure the model is
loaded, then run inference (`infer` stands for the external
preprocess/forward/interpolate pipeline, a function of the loaded state
and the image).  Returns the post-call adapter state together with the
raster. -/
def adapterPredict (mpsAvail cudaAvail : Bool) (proc weights : ℕ)
    (infer : AdapterState → RGBImage → Raster)
    (s : AdapterState) (image : RGBImage) : AdapterState × Raster :=
  let s2 := _load mpsAvail cudaAvail proc weights s
  (s2, infer s2 image)

/-! Concrete inputs used by the witnesses. -/

/-- A concrete 1×1 RGB image. -/
def exImage : RGBImage := { width := 1, height := 1, pix := [[(0, 0, 0)]] }

/-- A concrete model returning the spec's example raster `[[2,4],[6,8]]`. -/
def exModel : DepthModelPort := fun _ => [[2, 4], [6, 8]]

/-- A concrete model returning a constant raster. -/
def exConstModel : DepthModelPort := fun _ => [[5, 5], [5, 5]]

/-- A concrete model whose raster shape (1 row × 3 columns) differs from
every input image's dimensions used in the witnesses. -/
def exWideModel : DepthModelPort := fun _ => [[2, 4, 8]]

/-- A concrete PIL image in RGBA mode, 2×1. -/
def exPil : PILImage :=
  { mode := "RGBA", width := 2, height := 1, pix := [[(10, 20, 30, 40), (50, 60, 70, 80)]] }

/-- A concrete stand-in for the PIL decoder: decodes `[0]` to `exPil`,
fails on everything else. -/
def exDecode : List ℕ → Option PILImage :=
  fun b => if b = [0] then some exPil else none

/-- A concrete normalised depth map with values in `[0, 1]`. -/
def exDepthMap : Raster := [[0, 1], [1, 0]]

/-- A concrete raster with values inside and outside `[0, 1]`. -/
def exRawMap : Raster := [[0, 1], [2, -1]]

/-! ## Helper lemmas -/

theorem foldl_min_le_init (xs : List ℚ) (a : ℚ) : xs.foldl min a ≤ a := by
  induction xs generalizing a with
  | nil => simp
  | cons x xs ih => exact le_trans (ih (min a x)) (min_le_left a x)

theorem foldl_min_le_mem (xs : List ℚ) (a v : ℚ) (hv : v ∈ xs) :
    xs.foldl min a ≤ v := by
  induction xs generalizing a with
  | nil => cases hv
  | cons x xs ih =>
    rcases List.mem_cons.mp hv with h | h
    · subst h
      exact le_trans (foldl_min_le_init xs (min a v)) (min_le_right a v)
    · exact ih (min a x) h

theorem init_le_foldl_max (xs : List ℚ) (a : ℚ) : a ≤ xs.foldl max a := by
  induction xs generalizing a with
  | nil => simp
  | cons x xs ih => exact le_trans (le_max_left a x) (ih (max a x))

theorem mem_le_foldl_max (xs : List ℚ) (a v : ℚ) (hv : v ∈ xs) :
    v ≤ xs.foldl max a := by
  induction xs generalizing a with
  | nil => cases hv
  | cons x xs ih =>
    rcases List.mem_cons.mp hv with h | h
    · subst h
      exact le_trans (le_max_right a v) (init_le_foldl_max xs (max a v))
    · exact ih (max a x) h

theorem rasterMin_le_mem (r : Raster) (v : ℚ) (hv : v ∈ rasterElems r) :
    rasterMin r ≤ v := by
  unfold rasterMin
  cases h : rasterElems r with
  | nil => rw [h] at hv; cases hv
  | cons x xs =>
    rw [h] at hv
    rcases List.mem_cons.mp hv with h' | h'
    · subst h'; exact foldl_min_le_init xs v
    · exact foldl_min_le_mem xs x v h'

theorem mem_le_rasterMax (r : Raster) (v : ℚ) (hv : v ∈ rasterElems r) :
    v ≤ rasterMax r := by
  unfold rasterMax
  cases h : rasterElems r with
  | nil => rw [h] at hv; cases hv
  | cons x xs =>
    rw [h] at hv
    rcases List.mem_cons.mp hv with h' | h'
    · subst h'; exact init_le_foldl_max xs v
    · exact mem_le_foldl_max xs x v h'

theorem mem_rasterElems_map (f : ℚ → ℚ) (r : Raster) (v : ℚ) :
    v ∈ rasterElems (r.map (fun row => row.map f)) ↔
      ∃ u ∈ rasterElems r, f u = v := by
  simp only [rasterElems, List.mem_flatten, List.mem_map]
  constructor
  · rintro ⟨row, ⟨row0, hrow0, rfl⟩, hv⟩
    rcases List.mem_map.mp hv with ⟨u, hu, rfl⟩
    exact ⟨u, ⟨row0, hrow0, hu⟩, rfl⟩
  · rintro ⟨u, ⟨row0, hrow0, hu⟩, rfl⟩
    exact ⟨row0.map f, ⟨row0, hrow0, rfl⟩, List.mem_map_of_mem f hu⟩

theorem foldl_min_all_eq (xs : List ℚ) (x : ℚ) (h : ∀ v ∈ xs, v = x) :
    xs.foldl min x = x := by
  induction xs with
  | nil => rfl
  | cons y ys ih =>
    have hy : y = x := h y (List.mem_cons_self y ys)
    rw [List.foldl_cons, hy, min_self]
    exact ih (fun v hv => h v (List.mem_cons_of_mem y hv))

theorem foldl_max_all_eq (xs : List ℚ) (x : ℚ) (h : ∀ v ∈ xs, v = x) :
    xs.foldl max x = x := by
  induction xs with
  | nil => rfl
  | cons y ys ih =>
    have hy : y = x := h y (List.mem_cons_self y ys)
    rw [List.foldl_cons, hy, max_self]
    exact ih (fun v hv => h v (List.mem_cons_of_mem y hv))

theorem rasterShape_map (f : ℚ → ℚ) (r : Raster) :
    rasterShape (r.map (fun row => row.map f)) = rasterShape r := by
  simp [rasterShape, List.map_map, Function.comp_def]

/-! ## Claims -/

/-- **C1**: whenever the predicted raw raster has `min < max`,
`estimate_depth` returns the element-wise `(raw - min) / (max - min)`,
and every element of the output lies in `[0, 1]`.  (Arithmetic is
modelled exactly; the `float32` cast of the source is the identity in
this model.) -/
theorem estimate_depth_normalises (image : RGBImage) (model : DepthModelPort)
    (h : rasterMin (model image) < rasterMax (model image)) :
    estimate_depth image model =
      (model image).map (fun row => row.map
        (fun v => (v - rasterMin (model image)) /
                  (rasterMax (model image) - rasterMin (model image)))) ∧
    ∀ v ∈ rasterElems (estimate_depth image model), 0 ≤ v ∧ v ≤ 1 := by
  have hne : rasterMin (model image) ≠ rasterMax (model image) := ne_of_lt h
  have heq : estimate_depth image model =
      (model image).map (fun row => row.map
        (fun v => (v - rasterMin (model image)) /
                  (rasterMax (model image) - rasterMin (model image)))) := by
    unfold estimate_depth
    rw [if_neg hne]
  refine ⟨heq, ?_⟩
  intro v hv
  rw [heq] at hv
  rcases (mem_rasterElems_map _ _ _).mp hv with ⟨u, hu, rfl⟩
  have hd : 0 < rasterMax (model image) - rasterMin (model image) := sub_pos.mpr h
  constructor
  · exact div_nonneg (sub_nonneg.mpr (rasterMin_le_mem _ u hu)) (le_of_lt hd)
  · rw [div_le_one hd]
    exact sub_le_sub_right (mem_le_rasterMax _ u hu) _

/-- Witness for C1 at the spec's example raster `[[2,4],[6,8]]`. -/
theorem estimate_depth_normalises_witness :
    rasterMin (exModel exImage) < rasterMax (exModel exImage) ∧
    (estimate_depth exImage exModel =
      (exModel exImage).map (fun row => row.map
        (fun v => (v - rasterMin (exModel exImage)) /
                  (rasterMax (exModel exImage) - rasterMin (exModel exImage)))) ∧
     ∀ v ∈ rasterElems (estimate_depth exImage exModel), 0 ≤ v ∧ v ≤ 1) :=
  ⟨by decide, estimate_depth_normalises exImage exModel (by decide)⟩

/-- **C2**: on a raw raster whose elements are all equal, `min == max`,
the division branch is not taken, and `estimate_depth` returns an
all-zero raster of the same shape. -/
theorem estimate_depth_constant_raster (image : RGBImage) (model : DepthModelPort)
    (h : ∀ a ∈ rasterElems (model image), ∀ b ∈ rasterElems (model image), a = b) :
    rasterMin (model image) = rasterMax (model image) ∧
    estimate_depth image model = zeros_like (model image) ∧
    (∀ v ∈ rasterElems (estimate_depth image model), v = 0) ∧
    rasterShape (estimate_depth image model) = rasterShape (model image) := by
  have hmm : rasterMin (model image) = rasterMax (model image) := by
    unfold rasterMin rasterMax
    cases hE : rasterElems (model image) with
    | nil => rfl
    | cons x xs =>
      have hx : ∀ v ∈ xs, v = x := fun v hv =>
        h v (hE ▸ List.mem_cons_of_mem x hv) x (hE ▸ List.mem_cons_self x xs)
      dsimp only
      rw [foldl_min_all_eq xs x hx, foldl_max_all_eq xs x hx]
  have heq : estimate_depth image model = zeros_like (model image) := by
    unfold estimate_depth
    rw [if_pos hmm]
  refine ⟨hmm, heq, ?_, ?_⟩
  · intro v hv
    rw [heq] at hv
    rcases (mem_rasterElems_map _ _ _).mp hv with ⟨u, _, rfl⟩
    rfl
  · rw [heq]
    exact rasterShape_map _ _

/-- Witness for C2 at the constant raster `[[5,5],[5,5]]`. -/
theorem estimate_depth_constant_raster_witness :
    (∀ a ∈ rasterElems (exConstModel exImage),
       ∀ b ∈ rasterElems (exConstModel exImage), a = b) ∧
    (rasterMin (exConstModel exImage) = rasterMax (exConstModel exImage) ∧
     estimate_depth exImage exConstModel = zeros_like (exConstModel exImage) ∧
     (∀ v ∈ rasterElems (estimate_depth exImage exConstModel), v = 0) ∧
     rasterShape (estimate_depth exImage exConstModel) =
       rasterShape (exConstModel exImage)) :=
  ⟨by decide, estimate_depth_constant_raster exImage exConstModel (by decide)⟩

theorem mem_flatten_map_map {α β : Type} (f : α → β) (r : List (List α)) (v : β) :
    v ∈ (r.map (fun row => row.map f)).flatten ↔ ∃ u ∈ r.flatten, f u = v := by
  simp only [List.mem_flatten, List.mem_map]
  constructor
  · rintro ⟨row, ⟨row0, hrow0, rfl⟩, hv⟩
    rcases List.mem_map.mp hv with ⟨u, hu, rfl⟩
    exact ⟨u, ⟨row0, hrow0, hu⟩, rfl⟩
  · rintro ⟨u, ⟨row0, hrow0, hu⟩, rfl⟩
    exact ⟨row0.map f, ⟨row0, hrow0, rfl⟩, List.mem_map_of_mem f hu⟩

theorem toUint8_clip_eq_spec (v : ℚ) :
    toUint8 (clip (v * 255) 0 255) = (pngPixelSpec v).toNat := by
  unfold toUint8 clip pngPixelSpec
  have hmax : ⌊max (0:ℚ) (min (v * 255) 255)⌋ = max ⌊(0:ℚ)⌋ ⌊min (v * 255) (255:ℚ)⌋ :=
    Int.floor_mono.map_max
  have hmin : ⌊min (v * 255) (255:ℚ)⌋ = min ⌊v * 255⌋ ⌊(255:ℚ)⌋ :=
    Int.floor_mono.map_min
  have h255 : ((255:ℕ):ℤ) = 255 := by norm_num
  rw [hmax, hmin, Int.floor_zero, Int.floor_ofNat, h255]
  clear hmax hmin
  rcases le_total (⌊v * 255⌋) 0 with hk | hk
  · rw [min_eq_left (hk.trans (by norm_num)), max_eq_left hk, min_eq_right (by norm_num)]
    rfl
  · rcases le_total (⌊v * 255⌋) 255 with hk2 | hk2
    · rw [min_eq_left hk2, max_eq_right hk, min_eq_right hk2]
      omega
    · rw [min_eq_right hk2, max_eq_right hk, min_eq_left hk2,
          max_eq_right (by norm_num : (0:ℤ) ≤ 255)]
      rfl

theorem pngPixelSpec_le (v : ℚ) : (pngPixelSpec v).toNat ≤ 255 := by
  unfold pngPixelSpec
  omega

/-- **C3**: `depth_to_png` computes, for every element of the input
raster, exactly `floor(value * 255)` clamped to `[0, 255]`, and every
produced pixel fits in 8 bits; the function is total (defined on every
2-D float raster, also with values outside `[0, 1]`). -/
theorem depth_to_png_pixel_values (depth_array : Raster) :
    depth_to_png depth_array =
      depth_array.map (fun row => row.map (fun v => (pngPixelSpec v).toNat)) ∧
    ∀ p ∈ (depth_to_png depth_array).flatten, p ≤ 255 := by
  have heq : depth_to_png depth_array =
      depth_array.map (fun row => row.map (fun v => (pngPixelSpec v).toNat)) := by
    unfold depth_to_png
    simp only [toUint8_clip_eq_spec]
  refine ⟨heq, ?_⟩
  intro p hp
  rw [heq] at hp
  rcases (mem_flatten_map_map _ _ _).mp hp with ⟨u, _, rfl⟩
  exact pngPixelSpec_le u

/-- Witness for C3 at a raster holding values inside and outside
`[0, 1]`. -/
theorem depth_to_png_pixel_values_witness :
    depth_to_png exRawMap =
      exRawMap.map (fun row => row.map (fun v => (pngPixelSpec v).toNat)) ∧
    ∀ p ∈ (depth_to_png exRawMap).flatten, p ≤ 255 :=
  depth_to_png_pixel_values exRawMap

theorem png_pixel_roundtrip (v : ℚ) (h0 : 0 ≤ v) (h1 : v ≤ 1) :
    |((toUint8 (clip (v * 255) 0 255) : ℕ) : ℚ) / 255 - v| ≤ 1 / 255 := by
  have hx0 : (0:ℚ) ≤ v * 255 := by positivity
  have hx1 : v * 255 ≤ 255 := by nlinarith
  have hclip : clip (v * 255) 0 255 = v * 255 := by
    unfold clip
    rw [min_eq_left hx1, max_eq_right hx0]
  rw [hclip]
  unfold toUint8
  have hf0 : (0:ℤ) ≤ ⌊v * 255⌋ := Int.floor_nonneg.mpr hx0
  have hf1 : ⌊v * 255⌋ ≤ 255 := by
    have h255 : ⌊v * 255⌋ ≤ ⌊(255:ℚ)⌋ := Int.floor_le_floor hx1
    simpa using h255
  have hmod : ⌊v * 255⌋.toNat % 256 = ⌊v * 255⌋.toNat :=
    Nat.mod_eq_of_lt (by omega)
  rw [hmod]
  have hcast : ((⌊v * 255⌋.toNat : ℕ) : ℚ) = ((⌊v * 255⌋ : ℤ) : ℚ) := by
    exact_mod_cast Int.toNat_of_nonneg hf0
  rw [hcast, abs_le]
  have hfl : ((⌊v * 255⌋ : ℤ) : ℚ) ≤ v * 255 := Int.floor_le _
  have hfu : v * 255 < (⌊v * 255⌋ : ℚ) + 1 := Int.lt_floor_add_one _
  constructor <;> linarith

/-- **C6**: for a depth map with all values in `[0, 1]`, the grayscale
pixels `depth_to_png` encodes, read back as floats divided by 255,
recover every original value within `1/255` (position by position). -/
theorem png_roundtrip (depth_array : Raster)
    (h : ∀ v ∈ rasterElems depth_array, 0 ≤ v ∧ v ≤ 1) :
    List.Forall₂ (List.Forall₂ (fun (p : ℕ) (v : ℚ) => |(p : ℚ) / 255 - v| ≤ 1 / 255))
      (depth_to_png depth_array) depth_array := by
  unfold depth_to_png
  rw [List.forall₂_map_left_iff, List.forall₂_same]
  intro row hrow
  rw [List.forall₂_map_left_iff, List.forall₂_same]
  intro v hv
  have hmem : v ∈ rasterElems depth_array :=
    List.mem_flatten.mpr ⟨row, hrow, hv⟩
  exact png_pixel_roundtrip v (h v hmem).1 (h v hmem).2

/-- Witness for C6 at the concrete depth map `[[0, 1/2, 1]]`. -/
theorem png_roundtrip_witness :
    (∀ v ∈ rasterElems exDepthMap, 0 ≤ v ∧ v ≤ 1) ∧
    List.Forall₂ (List.Forall₂ (fun (p : ℕ) (v : ℚ) => |(p : ℚ) / 255 - v| ≤ 1 / 255))
      (depth_to_png exDepthMap) exDepthMap :=
  ⟨by decide, png_roundtrip exDepthMap (by decide)⟩

/-- **C5**: `decode_upload` fails, with exactly the message
"Invalid image data", iff the bytes cannot be decoded and loaded; on
every decodable input it returns the decoded image converted to RGB,
with the same pixel dimensions (the alpha channel is dropped by
`convertRGB`). -/
theorem decode_upload_spec (pilDecode : List ℕ → Option PILImage)
    (file_bytes : List ℕ) :
    ((∃ e, decode_upload pilDecode file_bytes = .error e) ↔
      pilDecode file_bytes = none) ∧
    (∀ e, decode_upload pilDecode file_bytes = .error e →
      e = "Invalid image data") ∧
    (∀ img, pilDecode file_bytes = some img →
      decode_upload pilDecode file_bytes = .ok (convertRGB img) ∧
      (convertRGB img).width = img.width ∧
      (convertRGB img).height = img.height) := by
  unfold decode_upload
  cases h : pilDecode file_bytes with
  | none =>
    refine ⟨⟨fun _ => rfl, fun _ => ⟨"Invalid image data", rfl⟩⟩, ?_, ?_⟩
    · intro e he
      cases he
      rfl
    · intro img himg
      exact Option.noConfusion himg
  | some img0 =>
    refine ⟨⟨?_, fun hc => Option.noConfusion hc⟩, ?_, ?_⟩
    · rintro ⟨e, he⟩
      exact Except.noConfusion he
    · intro e he
      exact Except.noConfusion he
    · intro img' himg
      cases himg
      exact ⟨rfl, rfl, rfl⟩

/-- Witness for C5: `exDecode` fails on `[1]` and decodes `[0]` to the
2×1 RGBA image `exPil`. -/
theorem decode_upload_spec_witness :
    (((∃ e, decode_upload exDecode [1] = .error e) ↔ exDecode [1] = none) ∧
     (∀ e, decode_upload exDecode [1] = .error e → e = "Invalid image data") ∧
     (∀ img, exDecode [1] = some img →
       decode_upload exDecode [1] = .ok (convertRGB img) ∧
       (convertRGB img).width = img.width ∧
       (convertRGB img).height = img.height)) ∧
    decode_upload exDecode [0] = .ok (convertRGB exPil) ∧
    decode_upload exDecode [1] = .error "Invalid image data" :=
  ⟨decode_upload_spec exDecode [1],
   ((decode_upload_spec exDecode [0]).2.2 exPil rfl).1,
   rfl⟩

/-- **C4**: `POST /api/depth` answers `400` with detail
"Invalid image data" exactly when the upload does not decode, and
otherwise `200` with content type `image/png`, the PNG encoding of the
normalised depth map as body, and the depth map's width and height as
decimal strings in `X-Depth-Width` / `X-Depth-Height`. -/
theorem depthHandler_spec (pilDecode : List ℕ → Option PILImage)
    (model : DepthModelPort) (raw : List ℕ) :
    (pilDecode raw = none →
      depthHandler pilDecode model raw =
        { status := 400, mediaType := none,
          body := .json "Invalid image data", headers := [] }) ∧
    (∀ img, pilDecode raw = some img →
      depthHandler pilDecode model raw =
        { status := 200, mediaType := some "image/png",
          body := .png (depth_to_png (estimate_depth (convertRGB img) model)),
          headers :=
            [("X-Depth-Width",
              toString (rasterWidth (estimate_depth (convertRGB img) model))),
             ("X-Depth-Height",
              toString (rasterHeight (estimate_depth (convertRGB img) model)))] }) := by
  constructor
  · intro h
    unfold depthHandler decode_upload
    rw [h]
  · intro img h
    unfold depthHandler decode_upload
    rw [h]

/-- Witness for C4: a failing upload `[1]` and a succeeding upload `[0]`
against the model `exWideModel`. -/
theorem depthHandler_spec_witness :
    exDecode [1] = none ∧ exDecode [0] = some exPil ∧
    depthHandler exDecode exWideModel [1] =
      { status := 400, mediaType := none,
        body := .json "Invalid image data", headers := [] } ∧
    depthHandler exDecode exWideModel [0] =
      { status := 200, mediaType := some "image/png",
        body := .png (depth_to_png (estimate_depth (convertRGB exPil) exWideModel)),
        headers :=
          [("X-Depth-Width",
            toString (rasterWidth (estimate_depth (convertRGB exPil) exWideModel))),
           ("X-Depth-Height",
            toString (rasterHeight (estimate_depth (convertRGB exPil) exWideModel)))] } :=
  ⟨rfl, rfl,
   (depthHandler_spec exDecode exWideModel [1]).1 rfl,
   (depthHandler_spec exDecode exWideModel [0]).2 exPil rfl⟩

theorem rasterElems_map (f : ℚ → ℚ) (r : Raster) :
    rasterElems (r.map (fun row => row.map f)) = (rasterElems r).map f := by
  unfold rasterElems
  exact (List.map_flatten f r).symm

theorem mem_zip_map_self (f : ℚ → ℚ) (l : List ℚ) (p : ℚ × ℚ)
    (hp : p ∈ l.zip (l.map f)) : p.2 = f p.1 ∧ p.1 ∈ l := by
  induction l with
  | nil => cases hp
  | cons x xs ih =>
    rw [List.map_cons, List.zip_cons_cons] at hp
    rcases List.mem_cons.mp hp with h | h
    · rw [h]
      exact ⟨rfl, List.mem_cons_self x xs⟩
    · rcases ih h with ⟨h1, h2⟩
      exact ⟨h1, List.mem_cons_of_mem x h2⟩

theorem foldl_min_map (f : ℚ → ℚ) (hf : ∀ a b, f (min a b) = min (f a) (f b))
    (xs : List ℚ) (a : ℚ) : (xs.map f).foldl min (f a) = f (xs.foldl min a) := by
  induction xs generalizing a with
  | nil => rfl
  | cons x xs ih =>
    rw [List.map_cons, List.foldl_cons, List.foldl_cons, ← hf, ih]

theorem foldl_max_map (f : ℚ → ℚ) (hf : ∀ a b, f (max a b) = max (f a) (f b))
    (xs : List ℚ) (a : ℚ) : (xs.map f).foldl max (f a) = f (xs.foldl max a) := by
  induction xs generalizing a with
  | nil => rfl
  | cons x xs ih =>
    rw [List.map_cons, List.foldl_cons, List.foldl_cons, ← hf, ih]

theorem rasterMin_map (f : ℚ → ℚ) (hf : ∀ a b, f (min a b) = min (f a) (f b))
    (r : Raster) (hne : rasterElems r ≠ []) :
    rasterMin (r.map (fun row => row.map f)) = f (rasterMin r) := by
  unfold rasterMin
  rw [rasterElems_map]
  cases hE : rasterElems r with
  | nil => exact absurd hE hne
  | cons x xs =>
    rw [List.map_cons]
    dsimp only
    exact foldl_min_map f hf xs x

theorem rasterMax_map (f : ℚ → ℚ) (hf : ∀ a b, f (max a b) = max (f a) (f b))
    (r : Raster) (hne : rasterElems r ≠ []) :
    rasterMax (r.map (fun row => row.map f)) = f (rasterMax r) := by
  unfold rasterMax
  rw [rasterElems_map]
  cases hE : rasterElems r with
  | nil => exact absurd hE hne
  | cons x xs =>
    rw [List.map_cons]
    dsimp only
    exact foldl_max_map f hf xs x

/-- **C7**: for a raw raster with `min < max`, normalisation is
order-preserving on corresponding raw/output element pairs, and the
output attains minimum `0` and maximum `1`. -/
theorem estimate_depth_order_preserving (image : RGBImage) (model : DepthModelPort)
    (h : rasterMin (model image) < rasterMax (model image)) :
    (∀ p ∈ (rasterElems (model image)).zip (rasterElems (estimate_depth image model)),
     ∀ q ∈ (rasterElems (model image)).zip (rasterElems (estimate_depth image model)),
       p.1 ≤ q.1 → p.2 ≤ q.2) ∧
    rasterMin (estimate_depth image model) = 0 ∧
    rasterMax (estimate_depth image model) = 1 := by
  set mn := rasterMin (model image) with hmn
  set mx := rasterMax (model image) with hmx
  have hd : 0 < mx - mn := sub_pos.mpr h
  have hmono : Monotone (fun v : ℚ => (v - mn) / (mx - mn)) := by
    intro a b hab
    dsimp only
    gcongr
  have heq : estimate_depth image model =
      (model image).map (fun row => row.map (fun v => (v - mn) / (mx - mn))) := by
    unfold estimate_depth
    rw [if_neg (ne_of_lt h)]
  have hne : rasterElems (model image) ≠ [] := by
    intro hnil
    rw [hmn, hmx] at h
    unfold rasterMin rasterMax at h
    rw [hnil] at h
    exact lt_irrefl 0 h
  refine ⟨?_, ?_, ?_⟩
  · intro p hp q hq hpq
    rw [heq, rasterElems_map] at hp hq
    rcases mem_zip_map_self _ _ p hp with ⟨hp2, _⟩
    rcases mem_zip_map_self _ _ q hq with ⟨hq2, _⟩
    rw [hp2, hq2]
    exact hmono hpq
  · rw [heq, rasterMin_map _ (fun a b => hmono.map_min) _ hne]
    rw [sub_self, zero_div]
  · rw [heq, rasterMax_map _ (fun a b => hmono.map_max) _ hne]
    rw [div_self (ne_of_gt hd)]

/-- Witness for C7 at the raster `[[2,4],[6,8]]`. -/
theorem estimate_depth_order_preserving_witness :
    rasterMin (exModel exImage) < rasterMax (exModel exImage) ∧
    ((∀ p ∈ (rasterElems (exModel exImage)).zip
              (rasterElems (estimate_depth exImage exModel)),
      ∀ q ∈ (rasterElems (exModel exImage)).zip
              (rasterElems (estimate_depth exImage exModel)),
        p.1 ≤ q.1 → p.2 ≤ q.2) ∧
     rasterMin (estimate_depth exImage exModel) = 0 ∧
     rasterMax (estimate_depth exImage exModel) = 1) :=
  ⟨by decide, estimate_depth_order_preserving exImage exModel (by decide)⟩

/-- **C8**: device selection is the first available candidate of the
fixed three-element preference list MPS, CUDA, CPU, for every value of
the two availability flags; in particular MPS wins whenever available,
CUDA whenever MPS is not, and CPU when neither accelerator is
available. -/
theorem detect_device_spec :
    (∀ mpsAvail cudaAvail : Bool,
      firstAvailable (devicePreference mpsAvail cudaAvail) =
        some (detect_device mpsAvail cudaAvail)) ∧
    (∀ cudaAvail : Bool, detect_device true cudaAvail = Device.mps) ∧
    detect_device false true = Device.cuda ∧
    detect_device false false = Device.cpu := by
  refine ⟨?_, ?_, rfl, rfl⟩
  · intro m c
    cases m <;> cases c <;> rfl
  · intro c
    rfl

/-- **C9**: the adapter's model load is lazy and idempotent: the first
`predict` on a fresh adapter installs the processor, model and device;
`_load` on an adapter whose model is already present is a no-op, and
loading twice equals loading once. -/
theorem adapter_load_lazy_idempotent (mpsAvail cudaAvail : Bool)
    (proc weights : ℕ) (infer : AdapterState → RGBImage → Raster)
    (image : RGBImage) (s : AdapterState)
    (h : s.model.isSome = true) :
    _load mpsAvail cudaAvail proc weights s = s ∧
    (adapterPredict mpsAvail cudaAvail proc weights infer
        initAdapterState image).1 =
      { processor := some proc, model := some weights,
        device := some (detect_device mpsAvail cudaAvail) } ∧
    _load mpsAvail cudaAvail proc weights
        (_load mpsAvail cudaAvail proc weights s) =
      _load mpsAvail cudaAvail proc weights s := by
  have h1 : _load mpsAvail cudaAvail proc weights s = s := by
    unfold _load
    rw [if_pos h]
  refine ⟨h1, rfl, ?_⟩
  rw [h1]
  exact h1

/-- Witness for C9 at a loaded adapter state and a fresh adapter. -/
theorem adapter_load_lazy_idempotent_witness :
    (AdapterState.mk (some 3) (some 4) (some Device.cpu)).model.isSome = true ∧
    (_load false false 1 2 (AdapterState.mk (some 3) (some 4) (some Device.cpu)) =
       AdapterState.mk (some 3) (some 4) (some Device.cpu) ∧
     (adapterPredict false false 1 2 (fun _ _ => [])
         initAdapterState exImage).1 =
       { processor := some 1, model := some 2,
         device := some (detect_device false false) } ∧
     _load false false 1 2
         (_load false false 1 2
           (AdapterState.mk (some 3) (some 4) (some Device.cpu))) =
       _load false false 1 2
         (AdapterState.mk (some 3) (some 4) (some Device.cpu))) :=
  ⟨rfl, adapter_load_lazy_idempotent false false 1 2 (fun _ _ => []) exImage
          (AdapterState.mk (some 3) (some 4) (some Device.cpu)) rfl⟩

theorem rasterHeight_map (f : ℚ → ℚ) (r : Raster) :
    rasterHeight (r.map (fun row => row.map f)) = rasterHeight r := by
  unfold rasterHeight
  exact List.length_map r _

theorem rasterWidth_map (f : ℚ → ℚ) (r : Raster) :
    rasterWidth (r.map (fun row => row.map f)) = rasterWidth r := by
  cases r with
  | nil => rfl
  | cons x xs =>
    unfold rasterWidth
    simp

/-- **C10**: `estimate_depth` preserves the raw raster's shape in both
branches, so the `X-Depth-Width` / `X-Depth-Height` headers of a
successful `/api/depth` response carry the raster's dimensions (the
model's output), not the uploaded image's. -/
theorem estimate_depth_shape_headers (pilDecode : List ℕ → Option PILImage)
    (model : DepthModelPort) (raw : List ℕ) :
    (∀ image : RGBImage,
      rasterShape (estimate_depth image model) = rasterShape (model image)) ∧
    (∀ img, pilDecode raw = some img →
      (depthHandler pilDecode model raw).headers =
        [("X-Depth-Width", toString (rasterWidth (model (convertRGB img)))),
         ("X-Depth-Height", toString (rasterHeight (model (convertRGB img))))]) := by
  have hshape : ∀ image : RGBImage,
      rasterShape (estimate_depth image model) = rasterShape (model image) := by
    intro image
    unfold estimate_depth
    by_cases hc : rasterMin (model image) = rasterMax (model image)
    · rw [if_pos hc]
      exact rasterShape_map _ _
    · rw [if_neg hc]
      exact rasterShape_map _ _
  have hwidth : ∀ image : RGBImage,
      rasterWidth (estimate_depth image model) = rasterWidth (model image) := by
    intro image
    unfold estimate_depth
    by_cases hc : rasterMin (model image) = rasterMax (model image)
    · rw [if_pos hc]
      exact rasterWidth_map _ _
    · rw [if_neg hc]
      exact rasterWidth_map _ _
  have hheight : ∀ image : RGBImage,
      rasterHeight (estimate_depth image model) = rasterHeight (model image) := by
    intro image
    unfold estimate_depth
    by_cases hc : rasterMin (model image) = rasterMax (model image)
    · rw [if_pos hc]
      exact rasterHeight_map _ _
    · rw [if_neg hc]
      exact rasterHeight_map _ _
  refine ⟨hshape, ?_⟩
  intro img h
  unfold depthHandler decode_upload
  rw [h]
  dsimp only
  rw [hwidth, hheight]

/-- Witness for C10: `exWideModel` returns a 1×3 raster on the 2×1
decoded image, and the headers report the raster's dimensions 3 and 1,
not the image's width 2. -/
theorem estimate_depth_shape_headers_witness :
    exDecode [0] = some exPil ∧
    (depthHandler exDecode exWideModel [0]).headers =
      [("X-Depth-Width", toString (rasterWidth (exWideModel (convertRGB exPil)))),
       ("X-Depth-Height", toString (rasterHeight (exWideModel (convertRGB exPil))))] ∧
    rasterWidth (exWideModel (convertRGB exPil)) = 3 ∧
    rasterHeight (exWideModel (convertRGB exPil)) = 1 ∧
    (convertRGB exPil).width = 2 ∧ (convertRGB exPil).height = 1 :=
  ⟨rfl,
   (estimate_depth_shape_headers exDecode exWideModel [0]).2 exPil rfl,
   rfl, rfl, rfl, rfl⟩

end ComicEngine
